import Mathlib

/-!
Verification of the BibTeX support module of the Rubber build tool
(`bibtex.py`).  The Python module is shallowly embedded: the filesystem is a
record of total functions (existence, modification time, content lines), the
module instance state is a `BibState` record, and each method of the Python
class becomes a Lean function on those records.  File lines are modelled as
strings without their trailing newline, which is how every regular expression
of the module sees them (the dot of Python regexes does not match a newline).
-/

namespace Bibtex

/-! ### Character and string helpers mirroring Python primitives -/

/-- The left-brace character. -/
def lbrace : Char := Char.ofNat 123

/-- The right-brace character. -/
def rbrace : Char := Char.ofNat 125

/-- The single-quote character. -/
def squote : Char := Char.ofNat 39

/-- The slash character. -/
def slashc : Char := Char.ofNat 47

/-- Python `str.isspace` characters, used by `strip` / `rstrip`. -/
def pySpace (c : Char) : Bool :=
  c = ' ' || c = '\t' || c = '\n' || c = '\r' || c = Char.ofNat 11 || c = Char.ofNat 12

/-- Python `string.strip`: remove leading and trailing whitespace. -/
def pyStripChars (cs : List Char) : List Char :=
  ((cs.dropWhile pySpace).reverse.dropWhile pySpace).reverse

/-- Python `string.strip` on a string. -/
def pyStrip (s : String) : String :=
  (pyStripChars s.toList).asString

/-- Python `str.rstrip`: remove trailing whitespace only. -/
def pyRstrip (s : String) : String :=
  ((s.toList.reverse.dropWhile pySpace).reverse).asString

/-- Does the character list start with the given pattern? (regex literal match) -/
def startsWithChars : List Char → List Char → Bool
  | [], _ => true
  | _ :: _, [] => false
  | p :: ps, c :: cs => p = c && startsWithChars ps cs

/-- Does the character list end with the given pattern? -/
def endsWithChars (pat cs : List Char) : Bool :=
  startsWithChars pat.reverse cs.reverse

/-- Remove a literal pattern from the front, or fail. -/
def stripLead : List Char → List Char → Option (List Char)
  | [], cs => some cs
  | _ :: _, [] => none
  | p :: ps, c :: cs => if c = p then stripLead ps cs else none

/-- Does the pattern occur contiguously anywhere in the list?
(Python `sub in s`, i.e. an unanchored regex literal search.) -/
def containsSeq (pat : List Char) : List Char → Bool
  | [] => startsWithChars pat []
  | c :: cs => startsWithChars pat (c :: cs) || containsSeq pat cs

/-- Value of a nonempty decimal-digit string, Python `int(...)`. -/
def digitsToNat (cs : List Char) : Nat :=
  cs.foldl (fun a c => 10 * a + (c.toNat - 48)) 0

/-- Python `data.split(",")`: always returns a nonempty list of fields. -/
def splitComma : List Char → List (List Char)
  | [] => [[]]
  | c :: cs =>
    if c = ',' then [] :: splitComma cs
    else
      match splitComma cs with
      | h :: t => (c :: h) :: t
      | [] => [[c]]

/-- `split(",")` on strings. -/
def pySplitComma (s : String) : List String :=
  (splitComma s.toList).map List.asString

/-- Lexicographic comparison of character lists by code point, the ordering
Python uses to compare and sort strings. -/
def lexLe : List Char → List Char → Bool
  | [], _ => true
  | _ :: _, [] => false
  | a :: as, b :: bs => if a = b then lexLe as bs else decide (a < b)

/-- Python string comparison `a <= b` (lexicographic by code point). -/
def strLe (a b : String) : Bool :=
  lexLe a.toList b.toList

/-- The comparison as a relation, for sortedness statements. -/
def strLeR (a b : String) : Prop := strLe a b = true

instance : DecidableRel strLeR := fun a b => by
  unfold strLeR; infer_instance

/-- `os.path.join dir name` for POSIX paths, as used with `dir` a search-path
entry and `name` a file name. -/
def pjoin (dir name : String) : String :=
  if startsWithChars [slashc] name.toList then name
  else if dir = "" then name
  else if endsWithChars [slashc] dir.toList then dir ++ name
  else dir ++ "/" ++ name

/-! ### The module's regular expressions

`re_bibdata  = \\bibdata\x7b(?P<data>.*)\x7d`   (anchored by `re.match`)
`re_citation = \\citation\x7b(?P<cite>.*)\x7d`  (anchored by `re.match`)
`re_undef    = LaTeX Warning: Citation ?(?P<cite>.*)? .*undefined.*` (anchored)
`re_error    = ---(line (?P<line>[0-9]+) of|while reading) file (?P<file>.*)`
               (unanchored `re.search`)

The dot never matches a newline, so a match is confined to the newline-free
segment starting at the match position; the `.*\x7d` idiom captures up to the
last closing brace of that segment. -/

/-- Text standing before the last right brace of the list, if a right brace
occurs at all (the greedy `.*` followed by a literal brace). -/
def beforeLastBrace : List Char → Option (List Char)
  | [] => none
  | c :: cs =>
    match beforeLastBrace cs with
    | some r => some (c :: r)
    | none => if c = rbrace then some [] else none

/-- Anchored match of a pattern of shape `<literal prefix>(.*)<right brace>`:
strip the literal, keep to the newline-free segment, capture up to the last
right brace. Used for both `re_citation` and `re_bibdata`. -/
def matchBraceGroup (pre : List Char) (line : String) : Option String :=
  match stripLead pre line.toList with
  | none => none
  | some rest => (beforeLastBrace (rest.takeWhile (· ≠ '\n'))).map List.asString

/-- `re_citation.match line`, returning the `cite` group. -/
def matchCitation (line : String) : Option String :=
  matchBraceGroup ("\\citation".toList ++ [lbrace]) line

/-- `re_bibdata.match line`, returning the `data` group. -/
def matchBibdata (line : String) : Option String :=
  matchBraceGroup ("\\bibdata".toList ++ [lbrace]) line

/-- After the literal head of `re_undef`, find the greedy split: the longest
capture followed by a quote and a space and then text containing the word
`undefined`.  Returns the `cite` group. -/
def undefSplit : List Char → Option (List Char)
  | [] => none
  | c :: cs =>
    match undefSplit cs with
    | some r => some (c :: r)
    | none =>
      if startsWithChars [squote, ' '] (c :: cs) &&
          containsSeq "undefined".toList ((c :: cs).drop 2)
      then some [] else none

/-- `re_undef.match line`, returning the `cite` group. -/
def matchUndef (line : String) : Option String :=
  match stripLead ("LaTeX Warning: Citation ".toList ++ [Char.ofNat 96]) line.toList with
  | none => none
  | some rest => (undefSplit (rest.takeWhile (· ≠ '\n'))).map List.asString

/-- Second alternative of `re_error` at a position already past the dashes:
`while reading file <F>`. -/
def matchErrWhile (r1 : List Char) : Option (Option (List Char) × List Char) :=
  match stripLead "while reading file ".toList r1 with
  | some r4 => some (none, r4.takeWhile (· ≠ '\n'))
  | none => none

/-- Match of `re_error` at the head of the list: literal dashes, then either
`line <N> of` or `while reading`, then ` file `, then the greedy file group.
Returns the `line` and `file` groups. -/
def matchErrAt (cs : List Char) : Option (Option (List Char) × List Char) :=
  match stripLead "---".toList cs with
  | none => none
  | some r1 =>
    match stripLead "line ".toList r1 with
    | some r2 =>
      let ds := r2.takeWhile Char.isDigit
      if ds.isEmpty then matchErrWhile r1
      else
        match stripLead " of file ".toList (r2.drop ds.length) with
        | some r4 => some (some ds, r4.takeWhile (· ≠ '\n'))
        | none => matchErrWhile r1
    | none => matchErrWhile r1

/-- `re_error.search line`: leftmost match, with its start position and the
`line` and `file` groups. -/
def searchErr : List Char → Option (Nat × Option (List Char) × List Char)
  | [] => none
  | c :: cs =>
    match matchErrAt (c :: cs) with
    | some g => some (0, g)
    | none =>
      match searchErr cs with
      | some (i, g) => some (i + 1, g)
      | none => none

/-! ### The registry (aux-file) parser, `Module.parse_aux` -/

/-- Accumulator of the `parse_aux` scan: the running citation index `last`,
the citation table `cites` (a mapping key to first-occurrence index, modelled
as an association list in insertion order), and the database name list
`dbs`. -/
structure AuxState where
  last : Nat
  cites : List (String × Nat)
  dbs : List String
deriving DecidableEq

/-- One line of the `parse_aux` loop: a citation line records an unseen key
with the next index; otherwise a bibdata line extends the database list with
its comma-separated fields; other lines are ignored. -/
def processLine (st : AuxState) (line : String) : AuxState :=
  match matchCitation line with
  | some cite =>
    if (st.cites.lookup cite).isSome then st
    else { st with last := st.last + 1, cites := st.cites ++ [(cite, st.last + 1)] }
  | none =>
    match matchBibdata line with
    | some data => { st with dbs := st.dbs ++ pySplitComma data }
    | none => st

/-- Python tuple comparison on (index, key) pairs, used by `list.sort()` on
the inverted citation pairs. -/
def pairLe (a b : Nat × String) : Prop :=
  a.1 < b.1 ∨ (a.1 = b.1 ∧ strLeR a.2 b.2)

instance : DecidableRel pairLe := fun a b => by
  unfold pairLe; infer_instance

/-- `Module.parse_aux` on the concatenated lines of the registry files: scan
every line, sort the database list, and return the citation keys either
lexicographically sorted (sorted mode) or by ascending first-occurrence
index (insertion mode). -/
def parse_aux_lines (srt : Bool) (lines : List String) : List String × List String :=
  let st := lines.foldl processLine ⟨0, [], []⟩
  let dbs := List.insertionSort strLeR st.dbs
  if srt then
    (List.insertionSort strLeR (st.cites.map Prod.fst), dbs)
  else
    (((st.cites.map (fun p => (p.2, p.1))).insertionSort pairLe).map Prod.snd, dbs)

/-! ### Filesystem and module state -/

/-- The filesystem as seen through the module's primitives: `os.path.exists`,
`os.path.getmtime`, and reading a file as its list of lines. -/
structure FS where
  fexists : String → Bool
  mtime : String → Int
  flines : String → List String

/-- The state of a `Module` instance together with the host fields it reads
and writes: `doc.sources` (dependency table, modelled by its key set),
`doc.not_included`, `doc.must_compile`, `doc.log.lines`, and the names of the
registry (aux) files `doc.aux_md5.keys()`. -/
structure BibState where
  base : String
  src_base : String
  bib_path : List String
  bst_path : List String
  db : List (String × String)
  style : Option String
  bst_file : Option String
  sorted : Bool
  run_needed : Bool
  must_compile : Bool
  undef_cites : Option (List String)
  used_cites : Option (List String)
  prev_dbs : Option (List String)
  sources : List String
  not_included : List String
  log_lines : List String
  aux_files : List String

/-- Python truthiness of the optional citation lists: `None` and the empty
list are falsy. -/
def pyTruthy : Option (List String) → Bool
  | some (_ :: _) => true
  | _ => false

/-- Key set insertion for the host's `doc.sources` dictionary. -/
def sourcesInsert (l : List String) (k : String) : List String :=
  if k ∈ l then l else l ++ [k]

/-- Insertion into the `db` dictionary (replace an existing key). -/
def dbInsert (l : List (String × String)) (k v : String) : List (String × String) :=
  match l with
  | [] => [(k, v)]
  | (a, b) :: t => if a = k then (k, v) :: t else (a, b) :: dbInsert t k v

/-- First directory of a search path containing `name ++ ext`, returning the
joined path. -/
def findOnPath (fs : FS) (fname : String) : List String → Option String
  | [] => none
  | d :: rest =>
    let cand := pjoin d fname
    if fs.fexists cand then some cand else findOnPath fs fname rest

/-- `Module.add_db`: resolve a database name on the bib search path; on
success record the resolved path in `db`, register it as a host dependency,
and append it to `doc.not_included`; on a miss do nothing. -/
def add_db (fs : FS) (name : String) (s : BibState) : BibState :=
  match findOnPath fs (name ++ ".bib") s.bib_path with
  | some bib =>
    { s with db := dbInsert s.db name bib,
             sources := sourcesInsert s.sources bib,
             not_included := s.not_included ++ [bib] }
  | none => s

/-- `Module.set_style`: if a style was set, try to delete the dependency
entry under the key formed from the bare old file name (when that bare path
exists); then record the new style and register the first style file found on
the style search path. -/
def set_style (fs : FS) (style : String) (s : BibState) : BibState :=
  let s1 :=
    match s.style with
    | some st =>
      let old := st ++ ".bst"
      if fs.fexists old ∧ old ∈ s.sources then { s with sources := s.sources.erase old }
      else s
    | none => s
  let s2 := { s1 with style := some style }
  match findOnPath fs (style ++ ".bst") s2.bst_path with
  | some f => { s2 with bst_file := some f, sources := sourcesInsert s2.sources f }
  | none => { s2 with bst_file := none }

/-! ### Parsers bound to the state -/

/-- `Module.parse_aux` proper: parse the concatenation of the registry
files' lines in their scan order. -/
def parse_aux (fs : FS) (s : BibState) : List String × List String :=
  parse_aux_lines s.sorted ((s.aux_files.map fs.flines).flatten)

/-- First-occurrence deduplication: keep each element at the position of its
first occurrence. -/
def firstOccur (l : List String) : List String :=
  l.foldl (fun acc c => if c ∈ acc then acc else acc ++ [c]) []

/-- `Module.list_undefs` applied to given main-log lines: the sorted set of
distinct keys from undefined-citation warnings (the dictionary of keys is
modelled by first-occurrence deduplication; the result is then sorted, so the
enumeration order of the dictionary is irrelevant). -/
def undefsOf (loglines : List String) : List String :=
  List.insertionSort strLeR (firstOccur (loglines.filterMap matchUndef))

/-- `Module.list_undefs`. -/
def list_undefs (s : BibState) : List String :=
  undefsOf s.log_lines

/-- `Module.style_changed`: scan the tool log for a line with the fixed
prefix naming the style file, and report a change when the name mentioned
there differs from the current style. -/
def style_changed (fs : FS) (s : BibState) : Bool :=
  if fs.fexists (s.base ++ ".blg") = false then false
  else
    (fs.flines (s.base ++ ".blg")).any fun line =>
      decide (line.take 16 = "The style file: ") &&
      decide (some (((pyRstrip line).drop 16).dropRight 4) ≠ s.style)

/-- `Module.first_run_needed`: no registry file means no run; a missing tool
log means a first run; otherwise a run is needed when a database is newer
than the tool log, the tool log mentions an error, the reported style is not
the current one, or the style file is newer than the tool log. -/
def first_run_needed (fs : FS) (s : BibState) : Bool :=
  if fs.fexists (s.base ++ ".aux") = false then false
  else if fs.fexists (s.base ++ ".blg") = false then true
  else
    let dtime := fs.mtime (s.base ++ ".blg")
    if (s.db.map Prod.snd).any (fun p => decide (fs.mtime p > dtime)) then true
    else if (fs.flines (s.base ++ ".blg")).any (fun l => (searchErr l.toList).isSome) then true
    else if style_changed fs s then true
    else
      match s.bst_file with
      | some f => decide (fs.mtime f > dtime)
      | none => false

/-! ### The staleness decisions -/

/-- `Module.run`: invoke the external tool.  The success of the subprocess is
abstracted into the `execFails` parameter; on failure the method reports 1
and changes nothing, on success it clears the pending-run flag, requests a
host recompilation and reports 0. -/
def run (execFails : Bool) (s : BibState) : Nat × BibState :=
  if execFails then (1, s)
  else (0, { s with run_needed := false, must_compile := true })

/-- Steps 1 to 3 of `Module.pre_compile`: snapshot the registry when the
host's registry file exists, snapshot the undefined citations when the main
log has lines, then evaluate `first_run_needed` into the pending-run flag. -/
def pre_scan (fs : FS) (s : BibState) : BibState :=
  let s1 :=
    if fs.fexists (s.src_base ++ ".aux") then
      { s with used_cites := some (parse_aux fs s).1, prev_dbs := some (parse_aux fs s).2 }
    else { s with prev_dbs := none }
  let s2 :=
    if s1.log_lines.isEmpty then s1
    else { s1 with undef_cites := some (list_undefs s1) }
  { s2 with run_needed := first_run_needed fs s2 }

/-- `Module.pre_compile`: after the scan, defer to the host when it already
plans a compilation; run the tool when a run is pending; otherwise request a
recompilation when the compiled bibliography is newer than the main log. -/
def pre_compile (fs : FS) (execFails : Bool) (s : BibState) : Nat × BibState :=
  let s3 := pre_scan fs s
  if s3.must_compile then (0, s3)
  else if s3.run_needed then run execFails s3
  else if fs.fexists (s3.base ++ ".bbl") then
    if fs.mtime (s3.base ++ ".bbl") > fs.mtime (s3.src_base ++ ".log")
    then (0, { s3 with must_compile := true })
    else (0, s3)
  else (0, s3)

/-- Tail of `Module.bibtex_needed` after the undefined-citation comparisons:
a missing tool log forces a run; with no undefined citations no run is
needed; a tool log older than the main log forces a run. -/
def continueBlg (fs : FS) (s : BibState) : Bool × BibState :=
  if fs.fexists (s.base ++ ".blg") = false then (true, s)
  else if s.undef_cites = some [] then (false, s)
  else if fs.mtime (s.base ++ ".blg") < fs.mtime (s.src_base ++ ".log") then (true, s)
  else (false, s)

/-- `Module.bibtex_needed`: the post-compile staleness decision, returning
the decision and the updated run state.  The comparisons are performed in the
order of the source: pending flag, database list change, citation list
change, undefined-citation change, then the tool-log checks. -/
def bibtex_needed (fs : FS) (s : BibState) : Bool × BibState :=
  if s.run_needed then (true, s)
  else
    let new := (parse_aux fs s).1
    let dbs := (parse_aux fs s).2
    if s.prev_dbs ≠ none ∧ s.prev_dbs ≠ some dbs then
      (true, { s with prev_dbs := some dbs, used_cites := some new,
                      undef_cites := some (list_undefs s) })
    else
      let s1 := { s with prev_dbs := some dbs }
      if pyTruthy s1.used_cites ∧ some new ≠ s1.used_cites then
        (true, { s1 with used_cites := some new, undef_cites := some (list_undefs s1) })
      else
        let s2 := { s1 with used_cites := some new }
        if pyTruthy s2.undef_cites then
          let newU := list_undefs s2
          if newU = [] then continueBlg fs { s2 with undef_cites := some [] }
          else if ∀ c ∈ newU, c ∈ s2.undef_cites.getD [] then
            (false, { s2 with undef_cites := some newU })
          else
            (true, { s2 with undef_cites := some newU })
        else
          continueBlg fs { s2 with undef_cites := some (list_undefs s2) }

/-! ### The tool-log error extractor, `Module.get_errors` -/

/-- One record yielded by `Module.get_errors`: the message text, the raw
`line` group (the record carries the digit string of the line number, as the
group dictionary is merged unconverted), and the reported file, resolved to a
registered database path when recognizable. -/
structure ErrRec where
  text : String
  lineGrp : Option String
  fileGrp : String
deriving DecidableEq

/-- The value of the Python local `last_line` between loop iterations: a
string for an ordinary line, but after an error line it holds the re-bound
loop variable, which is the converted line number or `None`. -/
inductive LastV
  | lstr (s : String)
  | lnum (n : Nat)
  | lnone
deriving DecidableEq

/-- Resolution of the `file` group of an error record: strip a database
suffix, look the name up among the registered databases (also with the suffix
restored); an unknown name is reported as the raw group. -/
def resolveFile (db : List (String × String)) (fg : String) : String :=
  let cs := fg.toList
  let f := if endsWithChars ".bib".toList cs then (cs.take (cs.length - 4)).asString else fg
  match db.lookup f with
  | some p => p
  | none =>
    match db.lookup (f ++ ".bib") with
    | some p => p
    | none => fg

/-- The loop of `Module.get_errors`: scan lines for the error pattern; the
message text is the stripped text before a mid-line marker, or the stripped
previous line for a marker at line start.  Requesting the previous line when
it is not a string (the loop variable was re-bound by the previous match) is
the Python `TypeError`, reported as an `Except.error`. -/
def getErrsAux (db : List (String × String)) (last : LastV) :
    List String → Except Unit (List ErrRec)
  | [] => .ok []
  | line :: rest =>
    match searchErr line.toList with
    | none => getErrsAux db (.lstr line) rest
    | some (i, lineGrp, fileGrp) =>
      let textE : Except Unit String :=
        if i = 0 then
          match last with
          | .lstr s => .ok (pyStrip s)
          | _ => .error ()
        else .ok (pyStrip (line.take i))
      match textE with
      | .error e => .error e
      | .ok text =>
        let lineVar : LastV :=
          match lineGrp with
          | some ds => .lnum (digitsToNat ds)
          | none => .lnone
        let rec0 : ErrRec :=
          { text := text,
            lineGrp := lineGrp.map List.asString,
            fileGrp := resolveFile db fileGrp.asString }
        match getErrsAux db lineVar rest with
        | .ok l => .ok (rec0 :: l)
        | .error e => .error e

/-- `Module.get_errors`: read the tool log when it exists and extract the
error records; a missing log yields nothing. -/
def get_errors (fs : FS) (s : BibState) : Except Unit (List ErrRec) :=
  if fs.fexists (s.base ++ ".blg") then getErrsAux s.db (.lstr "") (fs.flines (s.base ++ ".blg"))
  else .ok []

/-! ### Order properties of the string comparison -/

theorem lexLe_total : ∀ as bs : List Char, lexLe as bs = true ∨ lexLe bs as = true
  | [], _ => Or.inl rfl
  | _ :: _, [] => Or.inr rfl
  | a :: as, b :: bs => by
    by_cases h : a = b
    · subst h
      simpa [lexLe] using lexLe_total as bs
    · rcases lt_or_gt_of_ne h with hlt | hgt
      · exact Or.inl (by simp [lexLe, h, hlt])
      · exact Or.inr (by simp [lexLe, Ne.symm h, hgt])

theorem lexLe_trans : ∀ as bs cs : List Char,
    lexLe as bs = true → lexLe bs cs = true → lexLe as cs = true
  | [], _, _, _, _ => rfl
  | _ :: _, [], _, h, _ => by simp [lexLe] at h
  | _ :: _, _ :: _, [], _, h => by simp [lexLe] at h
  | a :: as, b :: bs, c :: cs, h1, h2 => by
    by_cases hab : a = b <;> by_cases hbc : b = c
    · subst hab; subst hbc
      simp only [lexLe, if_pos rfl] at h1 h2 ⊢
      exact lexLe_trans as bs cs h1 h2
    · subst hab
      simpa [lexLe, hbc] using h2
    · subst hbc
      simpa [lexLe, hab] using h1
    · simp only [lexLe, if_neg hab, decide_eq_true_eq] at h1
      simp only [lexLe, if_neg hbc, decide_eq_true_eq] at h2
      have hac : a < c := lt_trans h1 h2
      simp [lexLe, ne_of_lt hac, hac]

instance : IsTotal String strLeR :=
  ⟨fun a b => lexLe_total a.toList b.toList⟩

instance : IsTrans String strLeR :=
  ⟨fun a b c h1 h2 => lexLe_trans a.toList b.toList c.toList h1 h2⟩

/-! ### Concrete fixtures used to evaluate the definitions -/

/-- A blank module state: empty paths and tables, sorted mode on, no pending
run, matching a freshly constructed module with no databases. -/
def st0 : BibState :=
  { base := "doc", src_base := "doc", bib_path := [], bst_path := [], db := [],
    style := none, bst_file := none, sorted := true, run_needed := false,
    must_compile := false, undef_cites := none, used_cites := none,
    prev_dbs := none, sources := [], not_included := [], log_lines := [],
    aux_files := [] }

/-- A filesystem holding one registry file that declares the database `a`
twice on one bibdata line. -/
def fsDup : FS :=
  { fexists := fun f => f = "doc.aux",
    mtime := fun _ => 0,
    flines := fun f => if f = "doc.aux" then ["\\bibdata\x7ba,a\x7d"] else [] }

/-- The module state reading that registry. -/
def stDup : BibState := { st0 with aux_files := ["doc.aux"] }

/-! ### C1: the database-name list -/

/-- C1 counterexample: a registry whose single bibdata line mentions the
database `a` twice yields the database list `[a, a]`, which is not
duplicate-free, so the parse result is not a set. -/
theorem parse_aux_dbs_duplicate_cex :
    (parse_aux fsDup stDup).2 = ["a", "a"] ∧ ¬ (parse_aux fsDup stDup).2.Nodup := by
  decide

/-- C1 (amended): for every registry input the database-name list returned by
the registry parse (second component of `parse_aux`) is lexicographically
sorted regardless of input line order, but it is not deduplicated: a name
declared by several lines or comma entries appears once per declaration. -/
theorem parse_aux_dbs_sorted (fs : FS) (s : BibState) :
    List.Sorted strLeR (parse_aux fs s).2 := by
  unfold parse_aux parse_aux_lines
  split <;> exact List.sorted_insertionSort strLeR _

/-! ### C7: insertion-mode citation keys -/

theorem lookup_isSome_iff_mem_fst (l : List (String × Nat)) (c : String) :
    (l.lookup c).isSome = true ↔ c ∈ l.map Prod.fst := by
  simp only [List.lookup_isSome_iff, List.mem_map, beq_iff_eq]
  constructor
  · rintro ⟨p, hp, rfl⟩; exact ⟨p, hp, rfl⟩
  · rintro ⟨p, hp, rfl⟩; exact ⟨p, hp, rfl⟩

/-- The keys of the citation table are the first-occurrence fold of the keys
extracted from the scanned lines. -/
theorem foldl_cites_map_fst (lines : List String) (st : AuxState) :
    ((lines.foldl processLine st).cites).map Prod.fst =
      (lines.filterMap matchCitation).foldl
        (fun acc c => if c ∈ acc then acc else acc ++ [c]) (st.cites.map Prod.fst) := by
  induction lines generalizing st with
  | nil => rfl
  | cons line rest ih =>
    simp only [List.foldl_cons, List.filterMap_cons]
    rcases hm : matchCitation line with _ | c
    · have : processLine st line =
          match matchBibdata line with
          | some data => { st with dbs := st.dbs ++ pySplitComma data }
          | none => st := by
        unfold processLine; rw [hm]
      rw [this]
      rcases matchBibdata line with _ | data <;> simp [ih]
    · by_cases hk : (st.cites.lookup c).isSome = true
      · have hpl : processLine st line = st := by
          unfold processLine; rw [hm]; simp [hk]
        have hc : c ∈ st.cites.map Prod.fst := (lookup_isSome_iff_mem_fst _ _).mp hk
        rw [hpl, ih, List.foldl_cons, if_pos hc]
      · have hpl : processLine st line =
            { st with last := st.last + 1, cites := st.cites ++ [(c, st.last + 1)] } := by
          unfold processLine; rw [hm]; simp [hk]
        have hc : c ∉ st.cites.map Prod.fst := fun h =>
          hk ((lookup_isSome_iff_mem_fst _ _).mpr h)
        rw [hpl, ih, List.foldl_cons, if_neg hc]
        simp

/-- Invariant of the scan: the recorded indices increase strictly in table
order and are bounded by the running counter. -/
def citesInc (st : AuxState) : Prop :=
  (st.cites.map Prod.snd).Pairwise (· < ·) ∧ ∀ n ∈ st.cites.map Prod.snd, n ≤ st.last

theorem processLine_citesInc (st : AuxState) (line : String) (h : citesInc st) :
    citesInc (processLine st line) := by
  unfold processLine
  rcases matchCitation line with _ | c
  · rcases matchBibdata line with _ | data <;> exact h
  · by_cases hk : (st.cites.lookup c).isSome = true
    · simp only [hk, if_pos]; exact h
    · simp only [hk, Bool.false_eq_true, if_false]
      obtain ⟨hpw, hbd⟩ := h
      constructor
      · simp only [List.map_append, List.pairwise_append, List.map_cons, List.map_nil]
        refine ⟨hpw, List.pairwise_singleton _ _, ?_⟩
        intro n hn m hm
        simp only [List.mem_cons, List.not_mem_nil, or_false] at hm
        subst hm
        exact Nat.lt_succ_of_le (hbd n hn)
      · intro n hn
        simp only [List.map_append, List.mem_append, List.map_cons, List.map_nil,
          List.mem_cons, List.not_mem_nil, or_false] at hn
        rcases hn with hn | rfl
        · exact Nat.le_succ_of_le (hbd n hn)
        · exact le_rfl

theorem foldl_citesInc (lines : List String) (st : AuxState) (h : citesInc st) :
    citesInc (lines.foldl processLine st) := by
  induction lines generalizing st with
  | nil => exact h
  | cons line rest ih => exact ih _ (processLine_citesInc st line h)

/-- With strictly increasing indices, the inverted pair list is already
sorted for the Python tuple order, so sorting it is the identity. -/
theorem swapped_sorted (st : AuxState) (h : citesInc st) :
    List.Sorted pairLe (st.cites.map (fun p => (p.2, p.1))) := by
  have := h.1
  rw [List.pairwise_map] at this
  exact List.pairwise_map.mpr (this.imp fun hlt => Or.inl hlt)

theorem firstOccur_aux_nodup (l : List String) (acc : List String) (h : acc.Nodup) :
    (l.foldl (fun acc c => if c ∈ acc then acc else acc ++ [c]) acc).Nodup := by
  induction l generalizing acc with
  | nil => exact h
  | cons c rest ih =>
    simp only [List.foldl_cons]
    by_cases hc : c ∈ acc
    · rw [if_pos hc]; exact ih _ h
    · rw [if_neg hc]
      refine ih _ ?_
      simp [List.nodup_append, h, hc]

theorem firstOccur_nodup (l : List String) : (firstOccur l).Nodup :=
  firstOccur_aux_nodup l [] List.nodup_nil

/-- C7 (confirmed): with sorted mode off, the cited-key list returned by
`parse_aux` lists the keys extracted from the registry lines deduplicated at
their first occurrence, in scan order, hence each distinct key appears
exactly once at the position of its global first occurrence and repeated
citation lines do not move it. -/
theorem parse_aux_insertion_first_occurrence (fs : FS) (s : BibState)
    (h : s.sorted = false) :
    (parse_aux fs s).1 =
      firstOccur (((s.aux_files.map fs.flines).flatten).filterMap matchCitation) ∧
    (parse_aux fs s).1.Nodup := by
  have hinc : citesInc (((s.aux_files.map fs.flines).flatten).foldl processLine ⟨0, [], []⟩) :=
    foldl_citesInc _ _ ⟨List.Pairwise.nil, by simp⟩
  have hkey :
      (parse_aux fs s).1 =
        firstOccur (((s.aux_files.map fs.flines).flatten).filterMap matchCitation) := by
    unfold parse_aux parse_aux_lines
    rw [h]
    simp only [Bool.false_eq_true, if_false]
    rw [(swapped_sorted _ hinc).insertionSort_eq]
    rw [List.map_map]
    have : (Prod.snd ∘ fun p : String × Nat => (p.2, p.1)) = Prod.fst := rfl
    rw [this, foldl_cites_map_fst]
    rfl
  exact ⟨hkey, hkey ▸ firstOccur_nodup _⟩

/-- A registry with citations x, y, x in that order, in a file, plus the
state reading it with sorted mode off. -/
def fsSeq : FS :=
  { fexists := fun f => f = "doc.aux",
    mtime := fun _ => 0,
    flines := fun f =>
      if f = "doc.aux" then
        ["\\citation\x7bx\x7d", "\\citation\x7by\x7d", "\\citation\x7bx\x7d"]
      else [] }

/-- The state for the insertion-order scenario. -/
def stSeq : BibState := { st0 with sorted := false, aux_files := ["doc.aux"] }

/-- Witness for C7: on the registry citing x, y, x with sorted mode off, the
theorem applies and the parsed key list evaluates to [x, y]. -/
theorem parse_aux_insertion_first_occurrence_witness :
    ((parse_aux fsSeq stSeq).1 =
        firstOccur (((stSeq.aux_files.map fsSeq.flines).flatten).filterMap matchCitation) ∧
      (parse_aux fsSeq stSeq).1.Nodup) ∧
    (parse_aux fsSeq stSeq).1 = ["x", "y"] :=
  ⟨parse_aux_insertion_first_occurrence fsSeq stSeq rfl, by decide⟩

/-! ### C8: the end-to-end error-extraction scenario -/

/-- A filesystem whose tool log holds the two lines of the scenario: a
warning line followed by an error marker naming line 7 of file refs.bib. -/
def fsLog : FS :=
  { fexists := fun f => f = "doc.blg",
    mtime := fun _ => 0,
    flines := fun f =>
      if f = "doc.blg" then ["Warning--foo", "---line 7 of file refs.bib"] else [] }

/-- The scenario state with the database `refs` registered at path `p`. -/
def stRefs (p : String) : BibState := { st0 with db := [("refs", p)] }

/-- C8 (confirmed): on the two-line tool log, `get_errors` yields exactly one
record whose message text is the entire previous line `Warning--foo` (the
marker starts its line), whose line group is the digit string `7` (the record
carries the raw group; the integer conversion feeds only the loop variable),
and whose file is the resolved path of the registered database `refs`, or the
raw `refs.bib` when no such database is registered. -/
theorem get_errors_scenario (p : String) :
    get_errors fsLog (stRefs p) =
      .ok [{ text := "Warning--foo", lineGrp := some "7", fileGrp := p }] ∧
    get_errors fsLog st0 =
      .ok [{ text := "Warning--foo", lineGrp := some "7", fileGrp := "refs.bib" }] := by
  constructor
  · rfl
  · rfl

/-! ### C9: failure of the external tool leaves the state unchanged -/

/-- C9 (confirmed): when the subprocess fails, `run` reports 1 and the state
is exactly the input state, so the pending-run flag stays set and no
recompilation is requested; when it succeeds, `run` reports 0, clears the
pending-run flag and requests a recompilation, leaving every other field
unchanged. -/
theorem run_failure_preserves_state (s : BibState) :
    run true s = (1, s) ∧
    (run false s).1 = 0 ∧
    (run false s).2 = { s with run_needed := false, must_compile := true } := by
  exact ⟨rfl, rfl, rfl⟩

/-! ### C10: an unresolved database is absent and inert -/

theorem findOnPath_eq_none (fs : FS) (fname : String) (dirs : List String)
    (h : ∀ dir ∈ dirs, fs.fexists (pjoin dir fname) = false) :
    findOnPath fs fname dirs = none := by
  induction dirs with
  | nil => rfl
  | cons d rest ih =>
    unfold findOnPath
    simp only [h d (List.mem_cons_self d rest), Bool.false_eq_true, if_false]
    exact ih fun dir hd => h dir (List.mem_cons_of_mem d hd)

/-- C10 (confirmed): a database declared via `add_db` whose name resolves to
no existing file on the bib search path leaves the state untouched: it is
absent from the resolved-path table, registers no dependency, and therefore
every later `first_run_needed` evaluation is exactly what it would be without
the declaration. -/
theorem add_db_unresolved_noop (fs : FS) (name : String) (s : BibState)
    (h : ∀ dir ∈ s.bib_path, fs.fexists (pjoin dir (name ++ ".bib")) = false) :
    add_db fs name s = s ∧
    ∀ fs' : FS, first_run_needed fs' (add_db fs name s) = first_run_needed fs' s := by
  have hnone : findOnPath fs (name ++ ".bib") s.bib_path = none :=
    findOnPath_eq_none fs _ _ h
  have heq : add_db fs name s = s := by
    unfold add_db; rw [hnone]
  exact ⟨heq, fun fs' => by rw [heq]⟩

/-- Witness for C10: with an empty search path nothing resolves, `add_db` is
the identity and the declared name is absent from the table. -/
theorem add_db_unresolved_noop_witness :
    (add_db fsLog "refs" st0 = st0 ∧
      ∀ fs' : FS, first_run_needed fs' (add_db fsLog "refs" st0) = first_run_needed fs' st0) ∧
    (add_db fsLog "refs" st0).db.lookup "refs" = none :=
  ⟨add_db_unresolved_noop fsLog "refs" st0 (by intro dir hd; simp [st0] at hd), by decide⟩

/-! ### C2: the style-replacement dependency bug -/

/-- A filesystem with two style files in the style directory `/d` and nothing
under a bare relative name. -/
def fsSty : FS :=
  { fexists := fun f => f = "/d/alpha.bst" || f = "/d/plain.bst",
    mtime := fun _ => 0,
    flines := fun _ => [] }

/-- A module state whose style search path is the directory `/d`. -/
def stSty : BibState := { st0 with bst_path := ["/d"] }

/-- C2 (code bug): declaring the style `alpha` and then the style `plain`
leaves the dependency entry of the old style file in the host's source table,
because the removal looks the old style up under its bare file name
`alpha.bst` while the registration recorded the joined path `/d/alpha.bst`.
Both style files end up registered at once. -/
theorem set_style_stale_dependency :
    (set_style fsSty "plain" (set_style fsSty "alpha" stSty)).sources
        = ["/d/alpha.bst", "/d/plain.bst"] ∧
    "/d/alpha.bst" ∈ (set_style fsSty "plain" (set_style fsSty "alpha" stSty)).sources := by
  decide

/-! ### C3: the pre-compile bbl freshness signal -/

theorem pre_scan_fields (fs : FS) (s : BibState) :
    (pre_scan fs s).base = s.base ∧ (pre_scan fs s).src_base = s.src_base ∧
    (pre_scan fs s).must_compile = s.must_compile := by
  unfold pre_scan
  split <;> dsimp only <;> split <;> exact ⟨rfl, rfl, rfl⟩

/-- A filesystem where the compiled bibliography is older than the main log
and no registry file exists. -/
def fsOldBbl : FS :=
  { fexists := fun f => f = "doc.bbl",
    mtime := fun f => if f = "doc.bbl" then 1 else if f = "doc.log" then 2 else 0,
    flines := fun _ => [] }

/-- C3 counterexample: with no pending run and no compilation already
requested, a compiled bibliography strictly older than the main log does not
make `pre_compile` signal the host: the claim's comparison direction is
reversed in the code. -/
theorem pre_compile_stale_bbl_cex :
    fsOldBbl.fexists "doc.bbl" = true ∧
    fsOldBbl.mtime "doc.bbl" < fsOldBbl.mtime "doc.log" ∧
    st0.must_compile = false ∧
    (pre_scan fsOldBbl st0).run_needed = false ∧
    ((pre_compile fsOldBbl false st0).2).must_compile = false := by
  decide

/-- C3 (amended): in `pre_compile`, when no tool run is needed and the host
has not already requested a compilation, if the compiled bibliography output
exists and its modification time is strictly newer than the main log's (the
tool ran after the last compilation), the engine signals the host that a
compilation is required without invoking the tool, returning 0. -/
theorem pre_compile_newer_bbl_signals (fs : FS) (ef : Bool) (s : BibState)
    (h1 : s.must_compile = false)
    (h2 : (pre_scan fs s).run_needed = false)
    (h3 : fs.fexists (s.base ++ ".bbl") = true)
    (h4 : fs.mtime (s.base ++ ".bbl") > fs.mtime (s.src_base ++ ".log")) :
    ((pre_compile fs ef s).2).must_compile = true ∧ (pre_compile fs ef s).1 = 0 := by
  obtain ⟨hb, hsb, hmc⟩ := pre_scan_fields fs s
  unfold pre_compile
  dsimp only
  rw [hmc, h1, hb, hsb, h2, h3]
  simp [h4]

/-- A filesystem where the compiled bibliography is newer than the main log. -/
def fsNewBbl : FS :=
  { fexists := fun f => f = "doc.bbl",
    mtime := fun f => if f = "doc.bbl" then 3 else if f = "doc.log" then 2 else 0,
    flines := fun _ => [] }

/-- Witness for C3: on a concrete state with a fresh compiled bibliography
the amended theorem applies and the host signal evaluates to true. -/
theorem pre_compile_newer_bbl_signals_witness :
    ((pre_compile fsNewBbl false st0).2).must_compile = true ∧
    (pre_compile fsNewBbl false st0).1 = 0 :=
  pre_compile_newer_bbl_signals fsNewBbl false st0 rfl (by decide) (by decide) (by decide)

/-! ### C6: the first-run decision -/

/-- An empty filesystem. -/
def fsNone : FS :=
  { fexists := fun _ => false, mtime := fun _ => 0, flines := fun _ => [] }

/-- A filesystem whose tool log only reports having used the style `alpha`. -/
def fsStyLog : FS :=
  { fexists := fun f => f = "doc.aux" || f = "doc.blg",
    mtime := fun _ => 0,
    flines := fun f => if f = "doc.blg" then ["The style file: alpha.bst"] else [] }

/-- A module state whose current style is `plain`. -/
def stPlain : BibState := { st0 with style := some "plain" }

/-- C6 counterexample: (left) with no registry file, `first_run_needed`
returns false even though the tool log is absent; (right) with the tool log
present, zero error-marker lines and no database or style file registered at
all, `first_run_needed` still returns true because the log reports a style
other than the current one. -/
theorem first_run_needed_cex :
    (fsNone.fexists (st0.base ++ ".blg") = false ∧
      first_run_needed fsNone st0 = false) ∧
    (fsStyLog.fexists (stPlain.base ++ ".blg") = true ∧
      (fsStyLog.flines (stPlain.base ++ ".blg")).all
        (fun l => (searchErr l.toList).isNone) = true ∧
      stPlain.db = [] ∧ stPlain.bst_file = none ∧
      first_run_needed fsStyLog stPlain = true) := by
  decide

/-- C6 (amended): provided the registry file exists, `first_run_needed`
returns true whenever the tool log is absent; and it returns false whenever
the tool log is present, contains zero error-marker lines, every registered
database file and the resolved style file are strictly older than the tool
log, and the style reported by the tool log does not differ from the current
style. -/
theorem first_run_needed_amended (fs : FS) (s : BibState) :
    (fs.fexists (s.base ++ ".aux") = true → fs.fexists (s.base ++ ".blg") = false →
      first_run_needed fs s = true) ∧
    (fs.fexists (s.base ++ ".blg") = true →
      (∀ l ∈ fs.flines (s.base ++ ".blg"), searchErr l.toList = none) →
      (∀ p ∈ s.db.map Prod.snd, fs.mtime p < fs.mtime (s.base ++ ".blg")) →
      (∀ f, s.bst_file = some f → fs.mtime f < fs.mtime (s.base ++ ".blg")) →
      style_changed fs s = false →
      first_run_needed fs s = false) := by
  constructor
  · intro haux hblg
    unfold first_run_needed
    simp [haux, hblg]
  · intro hblg herr hdb hbst hsty
    unfold first_run_needed
    by_cases haux : fs.fexists (s.base ++ ".aux") = false
    · simp [haux]
    · have hany1 : (s.db.map Prod.snd).any
          (fun p => decide (fs.mtime p > fs.mtime (s.base ++ ".blg"))) = false := by
        rw [List.any_eq_false]
        intro p hp
        simp only [decide_eq_true_eq]
        exact lt_asymm (hdb p hp)
      have hany2 : (fs.flines (s.base ++ ".blg")).any
          (fun l => (searchErr l.toList).isSome) = false := by
        rw [List.any_eq_false]
        intro l hl
        rw [herr l hl]
        simp
      rcases hbf : s.bst_file with _ | f
      · simp [haux, hblg, hany1, hany2, hsty, hbf]
        exact fun x hx => herr x hx
      · have hlt : fs.mtime f < fs.mtime (s.base ++ ".blg") := hbst f hbf
        simp [haux, hblg, hany1, hany2, hsty, hbf, lt_asymm hlt]
        exact fun x hx => herr x hx

/-- A filesystem holding only the registry file. -/
def fsAuxOnly : FS :=
  { fexists := fun f => f = "doc.aux", mtime := fun _ => 0, flines := fun _ => [] }

/-- A filesystem holding the registry file and an empty, error-free tool log. -/
def fsClean : FS :=
  { fexists := fun f => f = "doc.aux" || f = "doc.blg",
    mtime := fun _ => 0, flines := fun _ => [] }

/-- Witness for C6: with a registry but no tool log the decision is a run;
with a clean tool log and nothing registered the decision is no run. -/
theorem first_run_needed_amended_witness :
    first_run_needed fsAuxOnly st0 = true ∧ first_run_needed fsClean st0 = false :=
  ⟨(first_run_needed_amended fsAuxOnly st0).1 (by decide) (by decide),
   (first_run_needed_amended fsClean st0).2 (by decide) (by decide) (by decide)
     (fun f h => by simp [st0] at h) (by decide)⟩

/-! ### C4: the missing-tool-log rule of the post-compile check -/

/-- A run state that already remembers the undefined citation `k`, whose main
log still reports `k` undefined, and whose remembered registry data matches
the (empty) registry. -/
def stUndef : BibState :=
  { st0 with
    prev_dbs := some [],
    undef_cites := some ["k"],
    log_lines := ["LaTeX Warning: Citation `k' on page 1 undefined on input line 2."] }

/-- C4 counterexample: with the tool log absent, the post-compile check
still answers no rerun when the previously recorded undefined citations are
all still (and the only ones) undefined: the undefined-citation comparison
returns before the tool-log check is reached. -/
theorem bibtex_needed_missing_blg_cex :
    fsNone.fexists (stUndef.base ++ ".blg") = false ∧
    (bibtex_needed fsNone stUndef).1 = false := by
  decide

/-- C4 (amended): if the tool log is absent when `bibtex_needed` is
evaluated, the check decides rerun, except when the evaluation has already
decided no rerun at the undefined-citations step: pending-run flag clear,
database list unchanged or unknown, cited-key list unchanged or not truthy,
prior undefined list non-empty, and the current undefined list non-empty and
contained in the prior one; in exactly that situation the check answers no
rerun despite the missing tool log. -/
theorem bibtex_needed_missing_blg (fs : FS) (s : BibState)
    (h : fs.fexists (s.base ++ ".blg") = false) :
    (bibtex_needed fs s).1 = true ∨
    (s.run_needed = false ∧
      ¬(s.prev_dbs ≠ none ∧ s.prev_dbs ≠ some (parse_aux fs s).2) ∧
      ¬(pyTruthy s.used_cites = true ∧ some (parse_aux fs s).1 ≠ s.used_cites) ∧
      pyTruthy s.undef_cites = true ∧ list_undefs s ≠ [] ∧
      (∀ c ∈ list_undefs s, c ∈ s.undef_cites.getD []) ∧
      (bibtex_needed fs s).1 = false) := by
  unfold bibtex_needed
  dsimp only
  by_cases hrn : s.run_needed = true
  · left; rw [if_pos hrn]
  · rw [if_neg hrn]
    by_cases hdbs : s.prev_dbs ≠ none ∧ s.prev_dbs ≠ some (parse_aux fs s).2
    · left; rw [if_pos hdbs]
    · rw [if_neg hdbs]
      by_cases hused : pyTruthy s.used_cites = true ∧ some (parse_aux fs s).1 ≠ s.used_cites
      · left; rw [if_pos hused]
      · rw [if_neg hused]
        by_cases hund : pyTruthy s.undef_cites = true
        · rw [if_pos hund]
          split
          · left
            unfold continueBlg
            rw [if_pos]
            exact h
          · rename_i hnewLit
            split
            · rename_i hsubLit
              right
              exact ⟨(Bool.not_eq_true _) ▸ hrn, hdbs, hused, hund, hnewLit, hsubLit, rfl⟩
            · left; rfl
        · rw [if_neg hund]
          left
          unfold continueBlg
          rw [if_pos]
          exact h

/-- Witness for C4: on the blank state with nothing on disk the theorem
applies; the exceptional situation does not hold (no undefined citations are
remembered), so the decision is a rerun. -/
theorem bibtex_needed_missing_blg_witness :
    (bibtex_needed fsNone st0).1 = true ∨
    (st0.run_needed = false ∧
      ¬(st0.prev_dbs ≠ none ∧ st0.prev_dbs ≠ some (parse_aux fsNone st0).2) ∧
      ¬(pyTruthy st0.used_cites = true ∧ some (parse_aux fsNone st0).1 ≠ st0.used_cites) ∧
      pyTruthy st0.undef_cites = true ∧ list_undefs st0 ≠ [] ∧
      (∀ c ∈ list_undefs st0, c ∈ st0.undef_cites.getD []) ∧
      (bibtex_needed fsNone st0).1 = false) :=
  bibtex_needed_missing_blg fsNone st0 (by decide)

/-! ### C5: idempotence of the post-compile check -/

theorem parse_aux_eq (fs : FS) (s : BibState) :
    parse_aux fs s = parse_aux_lines s.sorted ((s.aux_files.map fs.flines).flatten) := rfl

theorem list_undefs_eq (s : BibState) : list_undefs s = undefsOf s.log_lines := rfl

theorem continueBlg_state (fs : FS) (s : BibState) : (continueBlg fs s).2 = s := by
  unfold continueBlg
  split
  · rfl
  · split
    · rfl
    · split <;> rfl

/-- Any evaluation of `bibtex_needed` without a pending run leaves the run
state with the freshly parsed database list and citation list and the freshly
computed undefined citations, whatever it decides. -/
theorem bibtex_needed_state (fs : FS) (s : BibState) (h : s.run_needed = false) :
    (bibtex_needed fs s).2 =
      { s with prev_dbs := some (parse_aux fs s).2,
               used_cites := some (parse_aux fs s).1,
               undef_cites := some (list_undefs s) } := by
  unfold bibtex_needed
  dsimp only
  rw [if_neg (by simp [h])]
  split
  · rfl
  · split
    · rfl
    · split
      · split
        · rename_i hnew
          rw [continueBlg_state]
          have hl : list_undefs s = [] := hnew
          rw [hl]
        · split
          · rfl
          · rfl
      · rw [continueBlg_state]
        rfl

/-- A state with the pending-run flag set. -/
def stPend : BibState := { st0 with run_needed := true }

/-- C5 counterexample: two successive evaluations with no intervening file
change and no tool run do not always answer no rerun the second time: with
the pending-run flag set both calls answer rerun, and with the flag clear but
the tool log absent both calls also answer rerun. -/
theorem bibtex_needed_idempotent_cex :
    (stPend.run_needed = true ∧
      (bibtex_needed fsNone (bibtex_needed fsNone stPend).2).1 = true) ∧
    (st0.run_needed = false ∧ fsNone.fexists (st0.base ++ ".blg") = false ∧
      (bibtex_needed fsNone (bibtex_needed fsNone st0).2).1 = true) := by
  decide

/-- C5 (amended): for every starting run state whose pending-run flag is
clear and whose tool log is present, invoking the post-compile staleness
check twice in succession with no intervening changes to any file and no
tool run in between yields no rerun on the second call. -/
theorem bibtex_needed_idempotent (fs : FS) (s : BibState)
    (h1 : s.run_needed = false) (h2 : fs.fexists (s.base ++ ".blg") = true) :
    (bibtex_needed fs (bibtex_needed fs s).2).1 = false := by
  rw [bibtex_needed_state fs s h1]
  unfold bibtex_needed
  dsimp only
  simp only [parse_aux_eq, list_undefs_eq]
  rw [if_neg (by simp [h1])]
  rw [if_neg (by simp)]
  rw [if_neg (by simp)]
  by_cases hU : undefsOf s.log_lines = []
  · rw [if_neg (by rw [hU]; simp [pyTruthy])]
    unfold continueBlg
    rw [if_neg (by simp [h2])]
    rw [if_pos (by rw [hU])]
  · obtain ⟨a, t, hat⟩ : ∃ a t, undefsOf s.log_lines = a :: t := by
      rcases hc : undefsOf s.log_lines with _ | ⟨a, t⟩
      · exact absurd hc hU
      · exact ⟨a, t, rfl⟩
    rw [hat]
    rw [if_pos (by simp [pyTruthy])]
    rw [if_neg (by simp)]
    rw [if_pos (by intro c hc; simpa using hc)]

/-- Witness for C5: on the blank state with an existing (empty) tool log the
theorem applies: the second evaluation answers no rerun. -/
theorem bibtex_needed_idempotent_witness :
    (bibtex_needed fsClean (bibtex_needed fsClean st0).2).1 = false :=
  bibtex_needed_idempotent fsClean st0 rfl (by decide)

end Bibtex
